import Mathlib

/-!
Shallow embedding of the peer-discovery core of `libredrop-net`
(`src/peer_discovery.rs`).

Socket I/O is modelled by explicit event scripts: each non-blocking poll of
the socket consumes the next event of a finite script, and an exhausted
script stands for the socket reporting `Async::NotReady`.  The anonymous
public-key encryption of `safe_crypto` is modelled symbolically: a key pair
is an identifier, sealing records the public key and the plaintext, and
unsealing succeeds exactly for the matching pair.  `bincode` byte strings
are modelled as an inductive of either a well-formed encoding of a
`DiscoveryMsg` or opaque garbage bytes.
-/

namespace Libredrop

/-- Symbolic `safe_crypto::PublicEncryptKey`.  `keyId` identifies the key
pair the key belongs to; `valid` is false for key bytes that are malformed,
so that encrypting against them fails (`anonymously_encrypt(...).ok()` is
`None`). -/
structure PublicEncryptKey where
  keyId : Nat
  valid : Bool
deriving DecidableEq, Repr

/-- Symbolic `safe_crypto::SecretEncryptKey`. -/
structure SecretEncryptKey where
  keyId : Nat
deriving DecidableEq, Repr

/-- `safe_crypto::gen_encrypt_keypair`, with the randomness source modelled
as a counter threaded through successive calls: each call returns a fresh
pair and the advanced counter. -/
def gen_encrypt_keypair (ctr : Nat) : (PublicEncryptKey × SecretEncryptKey) × Nat :=
  ((⟨ctr, true⟩, ⟨ctr⟩), ctr + 1)

/-- `std::net::SocketAddr`, abstracted to an IP/port pair. -/
structure SocketAddr where
  ip : Nat
  port : Nat
deriving DecidableEq, Repr

/-- `DiscoveryMsg` (peer_discovery.rs lines 28-35). -/
inductive DiscoveryMsg
  | request (pk : PublicEncryptKey)
  | response (addrs : List SocketAddr)
deriving DecidableEq, Repr

/-- A `bincode` byte string: either the (injective) encoding of a
`DiscoveryMsg`, or bytes on which deserialization fails. -/
inductive Packet
  | msg (m : DiscoveryMsg)
  | garbage (bytes : List Nat)
deriving DecidableEq, Repr

/-- `bincode::deserialize::<DiscoveryMsg>`. -/
def deserialize : Packet → Option DiscoveryMsg
  | .msg m => some m
  | .garbage _ => none

/-- `DiscoveryMsg::serialized_request` (lines 39-42).  Serialization of the
enum cannot fail in the model, so the `bincode::Error` branch is absent. -/
def serialized_request (pk : PublicEncryptKey) : Packet :=
  Packet.msg (.request pk)

/-- A sealed (anonymously encrypted) byte string, as produced by
`PublicEncryptKey::anonymously_encrypt`. -/
inductive Sealed
  | cipher (pk : PublicEncryptKey) (m : DiscoveryMsg)
  | garbage (bytes : List Nat)
deriving DecidableEq, Repr

/-- `PublicEncryptKey::anonymously_encrypt(...).ok()`: sealing against a
malformed key fails. -/
def anonymously_encrypt (pk : PublicEncryptKey) (m : DiscoveryMsg) : Option Sealed :=
  if pk.valid then some (.cipher pk m) else none

/-- `SecretEncryptKey::anonymously_decrypt(buf, pk)`: unsealing succeeds
exactly when the blob was sealed against the given public key and the
secret key is the matching half of that pair. -/
def anonymously_decrypt (sk : SecretEncryptKey) (pk : PublicEncryptKey)
    (c : Sealed) : Option DiscoveryMsg :=
  match c with
  | .cipher pk' m => if pk' = pk ∧ pk'.keyId = sk.keyId then some m else none
  | .garbage _ => none

/-- `DiscoveryError` (lines 21-26), I/O and serialize errors abstracted to
numeric codes. -/
inductive DiscoveryError
  | ioErr (e : Nat)
  | serializeFailure (e : Nat)
  | invalidResponse
deriving DecidableEq, Repr

/-- `futures::Async`. -/
inductive Async (α : Type)
  | ready (a : α)
  | notReady

/-- `void::Void`: the uninhabited item type of the server future. -/
inductive Void

/-- `DiscoveryServer` (lines 47-54).  The bound UDP socket is external to
the state; its behaviour is supplied to the polling functions as an event
script. -/
structure DiscoveryServer where
  our_addrs : List SocketAddr
  port : Nat
  clients : List (SocketAddr × PublicEncryptKey)
deriving DecidableEq, Repr

/-- `DiscoveryServer::new` (lines 58-67): binds the socket (external) and
starts with an empty pending-client queue. -/
def DiscoveryServer.new (port : Nat) (our_addrs : List SocketAddr) : DiscoveryServer :=
  { our_addrs := our_addrs, port := port, clients := [] }

/-- One outcome of `listener.poll_recv_from` inside the receive loop:
a datagram, or an I/O error (the `?` operator propagates it).  Script
exhaustion models `Async::NotReady`. -/
inductive RecvEv
  | ready (pkt : Packet) (sender : SocketAddr)
  | ioErr (e : Nat)
deriving DecidableEq, Repr

/-- `DiscoveryServer::on_packet_recv` (lines 86-92), state effect: a
well-formed `Request` pushes `(sender_addr, their_pk)` onto `clients`
(Vec push appends at the end); anything else leaves the state unchanged
(it is only logged, see `on_packet_recv_log`). -/
def on_packet_recv (s : DiscoveryServer) (buf : Packet) (sender_addr : SocketAddr) :
    DiscoveryServer :=
  match deserialize buf with
  | some (.request their_pk) => { s with clients := s.clients ++ [(sender_addr, their_pk)] }
  | _ => s

/-- `DiscoveryServer::on_packet_recv` (line 90), log effect: the `warn!`
arm writes the entire received buffer to the log whenever the datagram does
not deserialize to a `Request`. -/
def on_packet_recv_log (buf : Packet) : List Packet :=
  match deserialize buf with
  | some (.request _) => []
  | _ => [buf]

/-- `DiscoveryServer::poll_requests` (lines 74-84): loop non-blocking
receives until the socket reports not-ready; an I/O error aborts the
responder via `?`. -/
def poll_requests (s : DiscoveryServer) : List RecvEv → Except Nat DiscoveryServer
  | [] => .ok s
  | .ready pkt sender :: rest => poll_requests (on_packet_recv s pkt sender) rest
  | .ioErr e :: _ => .error e

/-- Log effect of one `poll_requests` pass: the buffers logged by the
`warn!` arm for each received datagram, in arrival order. -/
def poll_requests_log : List RecvEv → List Packet
  | [] => []
  | .ready pkt _ :: rest => on_packet_recv_log pkt ++ poll_requests_log rest
  | .ioErr _ :: _ => []

/-- Byte length of a packet (garbage carries its raw bytes; encodings get
their nominal `bincode` sizes). -/
def Packet.rawLen : Packet → Nat
  | .msg (.request _) => 40
  | .msg (.response a) => 12 * a.length + 8
  | .garbage bs => bs.length

/-- Total number of attacker-controlled bytes written to the log during one
`poll_requests` pass. -/
def loggedBytes (evs : List RecvEv) : Nat :=
  ((poll_requests_log evs).map Packet.rawLen).sum

/-- One outcome of `listener.poll_send_to` inside the flush loop. -/
inductive SendEv
  | ready
  | notReady
  | ioErr (e : Nat)
deriving DecidableEq, Repr

/-- `DiscoveryServer::make_response` (lines 112-116): seal
`Response(our_addrs)` against the requester's public key. -/
def make_response (s : DiscoveryServer) (their_pk : PublicEncryptKey) : Option Sealed :=
  anonymously_encrypt their_pk (.response s.our_addrs)

/-- The flush loop of `DiscoveryServer::poll_send_responses` (lines
94-110), written over the pending queue in pop order (`Vec::pop` takes the
last element, so the queue argument here is `clients.reverse`; `Vec::push`
on a would-block prepends in this orientation, restoring the entry to the
front).  Returns the remaining queue (still in pop order) and the sent
`(destination, sealed response)` datagrams in send order. -/
def flushPending (our_addrs : List SocketAddr) :
    List (SocketAddr × PublicEncryptKey) → List SendEv →
    Except Nat (List (SocketAddr × PublicEncryptKey) × List (SocketAddr × Sealed))
  | [], _ => .ok ([], [])
  | (addr, their_pk) :: stack, evs =>
    match anonymously_encrypt their_pk (.response our_addrs) with
    | none => flushPending our_addrs stack evs
    | some resp =>
      match evs with
      | [] => .ok ((addr, their_pk) :: stack, [])
      | .ready :: evs' =>
        match flushPending our_addrs stack evs' with
        | .ok (stack', sent) => .ok (stack', (addr, resp) :: sent)
        | .error e => .error e
      | .notReady :: _ => .ok ((addr, their_pk) :: stack, [])
      | .ioErr e :: _ => .error e

/-- `DiscoveryServer::poll_send_responses` (lines 94-110): pop pending
clients (most recently pushed first), seal and send; a sealing failure
drops the entry and continues, a would-block pushes the entry back and
stops, an I/O error propagates via `?`. -/
def poll_send_responses (s : DiscoveryServer) (evs : List SendEv) :
    Except Nat (DiscoveryServer × List (SocketAddr × Sealed)) :=
  match flushPending s.our_addrs s.clients.reverse evs with
  | .ok (stack, sent) => .ok ({ s with clients := stack.reverse }, sent)
  | .error e => .error e

/-- `impl Future for DiscoveryServer` (lines 119-128): drain incoming, then
flush pending, then report `NotReady`; any I/O error propagates. -/
def DiscoveryServer.poll (s : DiscoveryServer) (recvEvs : List RecvEv) (sendEvs : List SendEv) :
    Except Nat (Async Void × DiscoveryServer × List (SocketAddr × Sealed)) :=
  match poll_requests s recvEvs with
  | .error e => .error e
  | .ok s1 =>
    match poll_send_responses s1 sendEvs with
    | .error e => .error e
    | .ok (s2, sent) => .ok (.notReady, s2, sent)

/-- The environment of one initiator branch in `discover_peers`: the
results of creating the branch's broadcast socket (`broadcast_sock`), of
`send_dgram`, and of `recv_dgram` (which, on success, yields the single
received datagram). -/
structure BranchEnv where
  sockRes : Except Nat Unit
  sendRes : Except Nat Unit
  recvRes : Except Nat Sealed

/-- One branch of the `discover_peers` chain (lines 137-149), for a single
broadcast target: open a socket, send the request, await one datagram,
unseal and decode it.  Each `and_then` stage short-circuits the branch on
error; a decrypt/decode failure becomes `InvalidResponse`. -/
def runBranch (our_pk : PublicEncryptKey) (our_sk : SecretEncryptKey) (env : BranchEnv) :
    Except DiscoveryError (List SocketAddr) :=
  match env.sockRes with
  | .error e => .error (.ioErr e)
  | .ok _ =>
    match env.sendRes with
    | .error e => .error (.ioErr e)
    | .ok _ =>
      match env.recvRes with
      | .error e => .error (.ioErr e)
      | .ok buf =>
        match anonymously_decrypt our_sk our_pk buf with
        | some (.response their_addrs) => .ok their_addrs
        | _ => .error .invalidResponse

/-- The request datagrams a branch hands to `send_dgram` (line 141): the
cloned serialized request, sent once per branch whose socket was created
(if socket creation fails the branch errors before sending). -/
def branchSends (our_pk : PublicEncryptKey) (addr : SocketAddr) (env : BranchEnv) :
    List (SocketAddr × Packet) :=
  match env.sockRes with
  | .ok _ => [(addr, serialized_request our_pk)]
  | .error _ => []

/-- `discover_peers` (lines 131-151).  `bcast` is the result of
`broadcast_addrs(port)`; `ctr` is the randomness counter consumed by
`gen_encrypt_keypair`; `env i` is the socket environment of the branch for
the i-th broadcast target.  Returns the item sequence of the stream, the
request datagrams passed to `send_dgram` across all branches, and the
advanced randomness counter.  If broadcast resolution fails the stream is
the single error item and no key pair is generated (`try_bstream!` returns
before `gen_encrypt_keypair`). -/
def discover_peers (bcast : Except Nat (List SocketAddr)) (ctr : Nat)
    (env : Nat → BranchEnv) :
    List (Except DiscoveryError (List SocketAddr)) × List (SocketAddr × Packet) × Nat :=
  match bcast with
  | .error e => ([.error (.ioErr e)], [], ctr)
  | .ok targets =>
    let kp := gen_encrypt_keypair ctr
    let our_pk := kp.1.1
    let our_sk := kp.1.2
    (targets.enum.map (fun p => runBranch our_pk our_sk (env p.1)),
     (targets.enum.map (fun p => branchSends our_pk p.2 (env p.1))).flatten,
     kp.2)

/-- Claim C1: for every key pair `(pk, sk)` and every responder constructed
with address list `A`, the sealed `Response` the responder builds against
`pk` decrypts under the matching secret key `sk` to a `Response` carrying
exactly `A` in the configured order, and it is decryptable only with that
matching secret key. -/
theorem c1_sealed_response_roundtrip (ctr : Nat) (A : List SocketAddr) (port : Nat) :
    ∃ blob,
      make_response (DiscoveryServer.new port A) (gen_encrypt_keypair ctr).1.1 = some blob ∧
      anonymously_decrypt (gen_encrypt_keypair ctr).1.2 (gen_encrypt_keypair ctr).1.1 blob
        = some (.response A) ∧
      ∀ (sk' : SecretEncryptKey) (m : DiscoveryMsg),
        anonymously_decrypt sk' (gen_encrypt_keypair ctr).1.1 blob = some m →
        sk' = (gen_encrypt_keypair ctr).1.2 := by
  refine ⟨Sealed.cipher ⟨ctr, true⟩ (.response A), ?_, ?_, ?_⟩
  · simp [make_response, anonymously_encrypt, gen_encrypt_keypair, DiscoveryServer.new]
  · simp [anonymously_decrypt, gen_encrypt_keypair]
  · intro sk' m h
    simp [anonymously_decrypt, gen_encrypt_keypair] at h
    cases sk'
    simp_all [gen_encrypt_keypair]

/-- Witness for C1 at a concrete key pair, address list and port. -/
theorem c1_witness :
    ∃ blob,
      make_response (DiscoveryServer.new 7 [⟨1, 2⟩]) (gen_encrypt_keypair 0).1.1 = some blob ∧
      anonymously_decrypt (gen_encrypt_keypair 0).1.2 (gen_encrypt_keypair 0).1.1 blob
        = some (.response [⟨1, 2⟩]) ∧
      ∀ (sk' : SecretEncryptKey) (m : DiscoveryMsg),
        anonymously_decrypt sk' (gen_encrypt_keypair 0).1.1 blob = some m →
        sk' = (gen_encrypt_keypair 0).1.2 :=
  c1_sealed_response_roundtrip 0 [⟨1, 2⟩] 7

/-- Claim C3: if a request from sender `A` and then a request from sender
`B` are both enqueued before any flush, an uninterrupted flush (the socket
accepting every send) sends the sealed `Response` to `B` before the one to
`A`: the pending queue is drained most-recently-enqueued-first. -/
theorem c3_flush_most_recent_first (port : Nat) (addrs : List SocketAddr)
    (A B : SocketAddr) (pkA pkB : PublicEncryptKey)
    (hA : pkA.valid = true) (hB : pkB.valid = true) :
    poll_send_responses
      (on_packet_recv
        (on_packet_recv (DiscoveryServer.new port addrs) (Packet.msg (.request pkA)) A)
        (Packet.msg (.request pkB)) B)
      [SendEv.ready, SendEv.ready] =
    .ok (DiscoveryServer.new port addrs,
      [(B, Sealed.cipher pkB (.response addrs)), (A, Sealed.cipher pkA (.response addrs))]) := by
  simp [poll_send_responses, flushPending, on_packet_recv, deserialize, DiscoveryServer.new,
    anonymously_encrypt, hA, hB]

/-- Witness for C3 at concrete senders and keys. -/
theorem c3_witness :
    poll_send_responses
      (on_packet_recv
        (on_packet_recv (DiscoveryServer.new 5 [⟨9, 9⟩]) (Packet.msg (.request ⟨0, true⟩)) ⟨1, 1⟩)
        (Packet.msg (.request ⟨2, true⟩)) ⟨3, 3⟩)
      [SendEv.ready, SendEv.ready] =
    .ok (DiscoveryServer.new 5 [⟨9, 9⟩],
      [(⟨3, 3⟩, Sealed.cipher ⟨2, true⟩ (.response [⟨9, 9⟩])),
       (⟨1, 1⟩, Sealed.cipher ⟨0, true⟩ (.response [⟨9, 9⟩]))]) :=
  c3_flush_most_recent_first 5 [⟨9, 9⟩] ⟨1, 1⟩ ⟨3, 3⟩ ⟨0, true⟩ ⟨2, true⟩ rfl rfl

/-- Claim C5: if the non-blocking send of a sealed response reports
would-block, the just-popped entry is pushed back so that the queue is
exactly as before (in particular that entry is still the next one popped),
flushing stops for this wakeup, and nothing is sent. -/
theorem c5_would_block_pushback (s : DiscoveryServer)
    (l : List (SocketAddr × PublicEncryptKey)) (addr : SocketAddr)
    (pk : PublicEncryptKey) (evs : List SendEv)
    (hcl : s.clients = l ++ [(addr, pk)]) (hpk : pk.valid = true) :
    poll_send_responses s (SendEv.notReady :: evs) = .ok (s, []) ∧
    s.clients.getLast? = some (addr, pk) := by
  constructor
  · obtain ⟨oa, p, cl⟩ := s
    dsimp only at hcl
    subst hcl
    simp [poll_send_responses, flushPending, anonymously_encrypt, hpk]
  · simp [hcl]

/-- Witness for C5 at a concrete queue with two pending clients. -/
theorem c5_witness :
    poll_send_responses ⟨[⟨8, 8⟩], 5, [(⟨1, 1⟩, ⟨0, true⟩), (⟨2, 2⟩, ⟨3, true⟩)]⟩
      [SendEv.notReady, SendEv.ready] =
      .ok (⟨[⟨8, 8⟩], 5, [(⟨1, 1⟩, ⟨0, true⟩), (⟨2, 2⟩, ⟨3, true⟩)]⟩, []) ∧
    (⟨[⟨8, 8⟩], 5, [(⟨1, 1⟩, ⟨0, true⟩), (⟨2, 2⟩, ⟨3, true⟩)]⟩ :
        DiscoveryServer).clients.getLast? = some (⟨2, 2⟩, ⟨3, true⟩) :=
  c5_would_block_pushback _ [(⟨1, 1⟩, ⟨0, true⟩)] ⟨2, 2⟩ ⟨3, true⟩ [SendEv.ready] rfl rfl

/-- Every datagram sent by the flush loop is a response to the configured
address list sealed under some valid key. -/
theorem flushPending_sent_sealed (our_addrs : List SocketAddr)
    (stack : List (SocketAddr × PublicEncryptKey)) (evs : List SendEv)
    (st : List (SocketAddr × PublicEncryptKey)) (sent : List (SocketAddr × Sealed))
    (h : flushPending our_addrs stack evs = .ok (st, sent)) :
    ∀ x ∈ sent, ∃ pk', pk'.valid = true ∧
      x.2 = Sealed.cipher pk' (.response our_addrs) := by
  induction stack generalizing evs st sent with
  | nil =>
    simp [flushPending] at h
    simp [h.2]
  | cons hd tl ih =>
    obtain ⟨addr, pk⟩ := hd
    by_cases hv : pk.valid
    · match evs with
      | [] =>
        simp [flushPending, anonymously_encrypt, hv] at h
        simp [h.2]
      | .ready :: evs' =>
        simp only [flushPending, anonymously_encrypt, hv, if_pos] at h
        match hrec : flushPending our_addrs tl evs' with
        | .ok (st', sent') =>
          rw [hrec] at h
          simp at h
          obtain ⟨-, h2⟩ := h
          intro x hx
          rw [← h2] at hx
          rcases List.mem_cons.1 hx with hx | hx
          · exact ⟨pk, hv, by simp [hx]⟩
          · exact ih evs' st' sent' hrec x hx
        | .error e => rw [hrec] at h; simp at h
      | .notReady :: evs' =>
        simp [flushPending, anonymously_encrypt, hv] at h
        simp [h.2]
      | .ioErr e :: evs' =>
        simp [flushPending, anonymously_encrypt, hv] at h
    · simp only [flushPending, anonymously_encrypt, hv, Bool.false_eq_true, if_neg,
        not_false_iff] at h
      exact ih evs st sent h

/-- Claim C6: when sealing the response for the popped pending entry fails
(malformed key bytes), the flush behaves exactly as if that entry had never
been in the queue — it is removed, never retried, flushing continues with
the remaining entries — and no datagram of this flush is sealed under that
key. -/
theorem c6_seal_failure_drops_entry (s : DiscoveryServer)
    (l : List (SocketAddr × PublicEncryptKey)) (addr : SocketAddr)
    (pk : PublicEncryptKey) (evs : List SendEv)
    (hcl : s.clients = l ++ [(addr, pk)]) (hpk : pk.valid = false) :
    poll_send_responses s evs = poll_send_responses { s with clients := l } evs ∧
    ∀ r, poll_send_responses s evs = .ok r →
      ∀ x ∈ r.2, x.2 ≠ Sealed.cipher pk (DiscoveryMsg.response s.our_addrs) := by
  constructor
  · simp [poll_send_responses, hcl, flushPending, anonymously_encrypt, hpk]
  · intro r hr x hx hcontra
    obtain ⟨s', sent⟩ := r
    simp only [poll_send_responses] at hr
    match hfl : flushPending s.our_addrs s.clients.reverse evs with
    | .ok (st, sent') =>
      rw [hfl] at hr
      simp at hr
      obtain ⟨pk', hv, hx2⟩ :=
        flushPending_sent_sealed s.our_addrs s.clients.reverse evs st sent' hfl x
          (by rw [hr.2]; exact hx)
      rw [hcontra] at hx2
      obtain ⟨h1, -⟩ := Sealed.cipher.injEq .. ▸ hx2
      rw [← h1] at hv
      simp [hpk] at hv
    | .error e => rw [hfl] at hr; simp at hr

/-- Witness for C6 at a concrete queue whose most recent entry has a
malformed key. -/
theorem c6_witness :
    poll_send_responses ⟨[⟨8, 8⟩], 5, [(⟨1, 1⟩, ⟨0, true⟩), (⟨2, 2⟩, ⟨3, false⟩)]⟩
        [SendEv.ready] =
      poll_send_responses
        ⟨[⟨8, 8⟩], 5, [(⟨1, 1⟩, ⟨0, true⟩)]⟩ [SendEv.ready] ∧
    ∀ r, poll_send_responses ⟨[⟨8, 8⟩], 5, [(⟨1, 1⟩, ⟨0, true⟩), (⟨2, 2⟩, ⟨3, false⟩)]⟩
        [SendEv.ready] = .ok r →
      ∀ x ∈ r.2, x.2 ≠ Sealed.cipher ⟨3, false⟩ (DiscoveryMsg.response [⟨8, 8⟩]) :=
  c6_seal_failure_drops_entry _ [(⟨1, 1⟩, ⟨0, true⟩)] ⟨2, 2⟩ ⟨3, false⟩ [SendEv.ready] rfl rfl

/-- A datagram that does not deserialize to a `Request` leaves the
responder state untouched. -/
theorem on_packet_recv_not_request (s : DiscoveryServer) (pkt : Packet)
    (sender : SocketAddr)
    (h : ∀ pk, deserialize pkt ≠ some (DiscoveryMsg.request pk)) :
    on_packet_recv s pkt sender = s := by
  unfold on_packet_recv
  match hd : deserialize pkt with
  | none => rfl
  | some (.request pk) => exact absurd hd (h pk)
  | some (.response a) => rfl

/-- Claim C10: the pending-client queue has no capacity limit: every
well-formed `Request` received during one drain pass appends exactly one
entry regardless of the current queue length, so `n` valid requests with no
intervening flush leave the queue exactly `n` entries longer. -/
theorem c10_queue_unbounded (s : DiscoveryServer) (rs : List RecvEv)
    (hreq : ∀ ev ∈ rs, ∃ pk sender,
      ev = RecvEv.ready (Packet.msg (.request pk)) sender) :
    ∃ s', poll_requests s rs = .ok s' ∧
      s'.clients.length = s.clients.length + rs.length := by
  induction rs generalizing s with
  | nil => exact ⟨s, rfl, by simp [poll_requests]⟩
  | cons ev rest ih =>
    obtain ⟨pk, sender, rfl⟩ := hreq ev (by simp)
    obtain ⟨s', h1, h2⟩ :=
      ih (on_packet_recv s (Packet.msg (.request pk)) sender)
        (fun e he => hreq e (by simp [he]))
    refine ⟨s', by simpa [poll_requests] using h1, ?_⟩
    have hrecv : on_packet_recv s (Packet.msg (.request pk)) sender =
        { s with clients := s.clients ++ [(sender, pk)] } := rfl
    rw [hrecv] at h2
    simp only [List.length_append, List.length_cons, List.length_nil] at h2 ⊢
    omega

/-- Witness for C10: three requests received on an empty queue leave three
pending clients. -/
theorem c10_witness :
    ∃ s', poll_requests (DiscoveryServer.new 5 [⟨9, 9⟩])
        [RecvEv.ready (Packet.msg (.request ⟨0, true⟩)) ⟨1, 1⟩,
         RecvEv.ready (Packet.msg (.request ⟨2, true⟩)) ⟨3, 3⟩,
         RecvEv.ready (Packet.msg (.request ⟨4, true⟩)) ⟨5, 5⟩] = .ok s' ∧
      s'.clients.length = (DiscoveryServer.new 5 [⟨9, 9⟩]).clients.length + 3 :=
  c10_queue_unbounded (DiscoveryServer.new 5 [⟨9, 9⟩]) _
    (by intro ev hev
        simp only [List.mem_cons, List.not_mem_nil, or_false] at hev
        rcases hev with rfl | rfl | rfl
        · exact ⟨⟨0, true⟩, ⟨1, 1⟩, rfl⟩
        · exact ⟨⟨2, true⟩, ⟨3, 3⟩, rfl⟩
        · exact ⟨⟨4, true⟩, ⟨5, 5⟩, rfl⟩)

/-- Claim C4: a received datagram that does not deserialize to the
`Request` variant (garbage bytes or a `Response` variant) enqueues no
pending client and produces no reply; the receive loop processes the whole
pass and the poll returns `Ok(NotReady)` — decode failures are never fatal
to the responder. -/
theorem c4_malformed_never_fatal (s : DiscoveryServer) (rs : List RecvEv)
    (ss : List SendEv)
    (hmal : ∀ ev ∈ rs, ∃ pkt sender, ev = RecvEv.ready pkt sender ∧
      ∀ pk, deserialize pkt ≠ some (DiscoveryMsg.request pk))
    (hempty : s.clients = []) :
    DiscoveryServer.poll s rs ss = .ok (Async.notReady, s, []) := by
  have hreq : poll_requests s rs = .ok s := by
    induction rs with
    | nil => rfl
    | cons ev rest ih =>
      obtain ⟨pkt, sender, rfl, hnr⟩ := hmal ev (by simp)
      rw [poll_requests, on_packet_recv_not_request s pkt sender hnr]
      exact ih (fun e he => hmal e (by simp [he]))
  have hsend : poll_send_responses s ss = .ok (s, []) := by
    obtain ⟨oa, p, cl⟩ := s
    dsimp only at hempty
    subst hempty
    simp [poll_send_responses, flushPending]
  simp [DiscoveryServer.poll, hreq, hsend]

/-- Witness for C4: garbage bytes and an unencrypted `Response` variant are
both dropped without any effect. -/
theorem c4_witness :
    DiscoveryServer.poll (DiscoveryServer.new 5 [⟨9, 9⟩])
      [RecvEv.ready (Packet.garbage [7, 7, 7]) ⟨1, 1⟩,
       RecvEv.ready (Packet.msg (.response [⟨2, 2⟩])) ⟨1, 1⟩]
      [SendEv.ready] =
    .ok (Async.notReady, DiscoveryServer.new 5 [⟨9, 9⟩], []) :=
  c4_malformed_never_fatal (DiscoveryServer.new 5 [⟨9, 9⟩]) _ [SendEv.ready]
    (by intro ev hev
        simp only [List.mem_cons, List.not_mem_nil, or_false] at hev
        rcases hev with rfl | rfl
        · exact ⟨Packet.garbage [7, 7, 7], ⟨1, 1⟩, rfl, by intro pk; simp [deserialize]⟩
        · exact ⟨Packet.msg (.response [⟨2, 2⟩]), ⟨1, 1⟩, rfl, by intro pk; simp [deserialize]⟩)
    rfl

/-- An error of the receive loop comes from an I/O error event of the
socket script. -/
theorem poll_requests_error_mem (s : DiscoveryServer) (rs : List RecvEv) (e : Nat)
    (h : poll_requests s rs = .error e) : RecvEv.ioErr e ∈ rs := by
  induction rs generalizing s with
  | nil => simp [poll_requests] at h
  | cons ev rest ih =>
    match ev with
    | .ready pkt sender =>
      rw [poll_requests] at h
      exact List.mem_cons_of_mem _ (ih _ h)
    | .ioErr e' =>
      rw [poll_requests] at h
      obtain rfl : e' = e := by simpa using h
      exact List.mem_cons_self ..

/-- An error of the flush loop comes from an I/O error event of the socket
script. -/
theorem flushPending_error_mem (our_addrs : List SocketAddr)
    (stack : List (SocketAddr × PublicEncryptKey)) (evs : List SendEv) (e : Nat)
    (h : flushPending our_addrs stack evs = .error e) : SendEv.ioErr e ∈ evs := by
  induction stack generalizing evs with
  | nil => simp [flushPending] at h
  | cons hd tl ih =>
    obtain ⟨addr, pk⟩ := hd
    by_cases hv : pk.valid
    · match evs with
      | [] => simp [flushPending, anonymously_encrypt, hv] at h
      | .ready :: evs' =>
        simp only [flushPending, anonymously_encrypt, hv, if_pos] at h
        match hrec : flushPending our_addrs tl evs' with
        | .ok (st', sent') => rw [hrec] at h; simp at h
        | .error e' =>
          rw [hrec] at h
          obtain rfl : e' = e := by simpa using h
          exact List.mem_cons_of_mem _ (ih evs' hrec)
      | .notReady :: evs' => simp [flushPending, anonymously_encrypt, hv] at h
      | .ioErr e' :: evs' =>
        simp only [flushPending, anonymously_encrypt, hv, if_pos] at h
        obtain rfl : e' = e := by simpa using h
        exact List.mem_cons_self ..
    · simp only [flushPending, anonymously_encrypt, hv, Bool.false_eq_true, if_neg,
        not_false_iff] at h
      exact ih evs h

/-- Claim C8: polling the running responder never yields a completion
value: whenever the poll succeeds it returns `NotReady`, and when it ends
with an error, that error is an I/O error reported by the socket during
this poll, propagated as-is (no self-recovery). -/
theorem c8_poll_never_completes (s : DiscoveryServer) (rs : List RecvEv)
    (ss : List SendEv) :
    (∀ r, DiscoveryServer.poll s rs ss = .ok r → r.1 = Async.notReady) ∧
    (∀ e, DiscoveryServer.poll s rs ss = .error e →
      RecvEv.ioErr e ∈ rs ∨ SendEv.ioErr e ∈ ss) := by
  constructor
  · intro r hr
    simp only [DiscoveryServer.poll] at hr
    match h1 : poll_requests s rs with
    | .error e => simp only [h1] at hr; exact Except.noConfusion hr
    | .ok s1 =>
      simp only [h1] at hr
      match h2 : poll_send_responses s1 ss with
      | .error e => simp only [h2] at hr; exact Except.noConfusion hr
      | .ok (s2, sent) =>
        simp only [h2] at hr
        obtain rfl : (Async.notReady, s2, sent) = r := by simpa using hr
        rfl
  · intro e he
    simp only [DiscoveryServer.poll] at he
    match h1 : poll_requests s rs with
    | .error e1 =>
      simp only [h1] at he
      simp only [Except.error.injEq] at he
      exact Or.inl (he ▸ poll_requests_error_mem s rs e1 h1)
    | .ok s1 =>
      simp only [h1] at he
      match h2 : poll_send_responses s1 ss with
      | .ok (s2, sent) => simp only [h2] at he; exact Except.noConfusion he
      | .error e2 =>
        simp only [h2] at he
        simp only [Except.error.injEq] at he
        right
        simp only [poll_send_responses] at h2
        match h3 : flushPending s1.our_addrs s1.clients.reverse ss with
        | .ok (st, sent) => simp only [h3] at h2; exact Except.noConfusion h2
        | .error e3 =>
          simp only [h3] at h2
          simp only [Except.error.injEq] at h2
          exact he ▸ h2 ▸ flushPending_error_mem _ _ _ _ h3

/-- Witness for C8: a poll with an empty script returns `NotReady`. -/
theorem c8_witness :
    ((Async.notReady : Async Void), DiscoveryServer.new 5 [⟨9, 9⟩],
      ([] : List (SocketAddr × Sealed))).1 = Async.notReady :=
  (c8_poll_never_completes (DiscoveryServer.new 5 [⟨9, 9⟩]) [] []).1
    ((Async.notReady : Async Void), DiscoveryServer.new 5 [⟨9, 9⟩], []) rfl

/-- Claim C9 (code bug): the `warn!` arm of `on_packet_recv` logs the whole
raw buffer of every datagram that fails to decode as a `Request`, so the
attacker-controlled bytes written to the log grow linearly both in the
number of malformed datagrams and in their size — there is no bound, unlike
what the spec requires (the code's own TODO on line 89 admits the missing
limit). -/
theorem c9_unbounded_raw_logging (n L : Nat) (a : SocketAddr) :
    loggedBytes
      (List.replicate n (RecvEv.ready (Packet.garbage (List.replicate L 0)) a)) =
      n * L := by
  induction n with
  | zero => simp [loggedBytes, poll_requests_log]
  | succ k ih =>
    rw [List.replicate_succ]
    have hstep : loggedBytes
        (RecvEv.ready (Packet.garbage (List.replicate L 0)) a ::
          List.replicate k (RecvEv.ready (Packet.garbage (List.replicate L 0)) a)) =
        L + loggedBytes
          (List.replicate k (RecvEv.ready (Packet.garbage (List.replicate L 0)) a)) := by
      simp [loggedBytes, poll_requests_log, on_packet_recv_log, deserialize, Packet.rawLen]
    rw [hstep, ih]
    ring

/-- Claim C2: when broadcast-target resolution succeeds, the result
sequence of `discover_peers` is a finite list with exactly one item per
broadcast target, and the i-th item is fully determined by the i-th
branch's own socket environment — so a failure in one branch can neither
abort nor remove any sibling's item. -/
theorem c2_one_item_per_target (bcast : Except Nat (List SocketAddr))
    (targets : List SocketAddr) (ctr : Nat) (env : Nat → BranchEnv)
    (hb : bcast = .ok targets) :
    (discover_peers bcast ctr env).1.length = targets.length ∧
    ∀ i, i < targets.length →
      (discover_peers bcast ctr env).1[i]? =
        some (runBranch (gen_encrypt_keypair ctr).1.1 (gen_encrypt_keypair ctr).1.2
          (env i)) := by
  subst hb
  constructor
  · simp [discover_peers]
  · intro i hi
    simp only [discover_peers, List.getElem?_map, List.getElem?_enum]
    rw [List.getElem?_eq_getElem hi]
    simp

/-- Witness for C2: two targets, the first branch failing at socket
creation and the second receiving garbage, still yield exactly their own
two items. -/
theorem c2_witness :
    (discover_peers (.ok [⟨1, 1⟩, ⟨2, 2⟩]) 0
      (fun i => if i = 0 then ⟨.error 3, .ok (), .ok (.garbage [])⟩
                else ⟨.ok (), .ok (), .ok (.garbage [])⟩)).1.length =
      [(⟨1, 1⟩ : SocketAddr), ⟨2, 2⟩].length ∧
    ∀ i, i < [(⟨1, 1⟩ : SocketAddr), ⟨2, 2⟩].length →
      (discover_peers (.ok [⟨1, 1⟩, ⟨2, 2⟩]) 0
        (fun i => if i = 0 then ⟨.error 3, .ok (), .ok (.garbage [])⟩
                  else ⟨.ok (), .ok (), .ok (.garbage [])⟩)).1[i]? =
        some (runBranch (gen_encrypt_keypair 0).1.1 (gen_encrypt_keypair 0).1.2
          (if i = 0 then ⟨.error 3, .ok (), .ok (.garbage [])⟩
           else ⟨.ok (), .ok (), .ok (.garbage [])⟩)) :=
  c2_one_item_per_target (.ok [⟨1, 1⟩, ⟨2, 2⟩]) [⟨1, 1⟩, ⟨2, 2⟩] 0
    (fun i => if i = 0 then ⟨.error 3, .ok (), .ok (.garbage [])⟩
              else ⟨.ok (), .ok (), .ok (.garbage [])⟩) rfl

/-- Claim C7: one ephemeral key pair per `discover_peers` call: every
request datagram handed to `send_dgram` in that call is the identical
serialized unencrypted `Request` carrying that call's public key, and a
subsequent call (consuming the advanced randomness counter) generates a
different key pair. -/
theorem c7_one_keypair_per_call (bcast : Except Nat (List SocketAddr))
    (targets : List SocketAddr) (ctr : Nat) (env : Nat → BranchEnv)
    (hb : bcast = .ok targets) :
    (∀ x ∈ (discover_peers bcast ctr env).2.1,
      x.2 = serialized_request (gen_encrypt_keypair ctr).1.1) ∧
    (discover_peers bcast ctr env).2.2 = ctr + 1 ∧
    (gen_encrypt_keypair (discover_peers bcast ctr env).2.2).1.1 ≠
      (gen_encrypt_keypair ctr).1.1 := by
  subst hb
  refine ⟨?_, rfl, ?_⟩
  · intro x hx
    simp only [discover_peers, List.mem_flatten, List.mem_map] at hx
    obtain ⟨l, ⟨p, hp, rfl⟩, hxl⟩ := hx
    unfold branchSends at hxl
    match hs : (env p.1).sockRes with
    | .ok u =>
      simp only [hs, List.mem_singleton] at hxl
      simp [hxl]
    | .error e' => simp only [hs] at hxl; simp at hxl
  · simp only [discover_peers, gen_encrypt_keypair, ne_eq, PublicEncryptKey.mk.injEq]
    omega

/-- Witness for C7 at a single broadcast target and counter 0. -/
theorem c7_witness :
    (∀ x ∈ (discover_peers (.ok [⟨1, 1⟩]) 0
        (fun _ => ⟨.ok (), .ok (), .ok (.garbage [])⟩)).2.1,
      x.2 = serialized_request (gen_encrypt_keypair 0).1.1) ∧
    (discover_peers (.ok [⟨1, 1⟩]) 0
      (fun _ => ⟨.ok (), .ok (), .ok (.garbage [])⟩)).2.2 = 0 + 1 ∧
    (gen_encrypt_keypair ((discover_peers (.ok [⟨1, 1⟩]) 0
      (fun _ => ⟨.ok (), .ok (), .ok (.garbage [])⟩)).2.2)).1.1 ≠
      (gen_encrypt_keypair 0).1.1 :=
  c7_one_keypair_per_call (.ok [⟨1, 1⟩]) [⟨1, 1⟩] 0
    (fun _ => ⟨.ok (), .ok (), .ok (.garbage [])⟩) rfl

end Libredrop
